import Mathlib

/-!
Verification of the `inline-proc` surface expanders and pipeline data model.

Token streams are embedded as lists of token trees; the sugar expanders
`inline_attr` and `inline_derive` from `src/lib.rs` are translated as pure
functions on that embedding.
-/

set_option maxHeartbeats 1000000

namespace InlineProc

/-- Delimiter of a token group: `(...)`, `[...]` or `{...}` (proc-macro2 `Delimiter`,
without the invisible `None` delimiter, which never appears in the streams at issue). -/
inductive Delim where
  | paren
  | bracket
  | brace
  deriving DecidableEq, Repr

/-- A single token tree (proc-macro2 `TokenTree`): an identifier, a punctuation
character, a literal, or a delimited group of nested tokens. -/
inductive Tok where
  | ident (name : String)
  | punct (ch : Char)
  | lit (text : String)
  | group (delim : Delim) (stream : List Tok)

/-- A simple path (`syn::Path` restricted to plain segments, the form the
sugar expanders are used with): optional leading `::`, then one or more
`::`-separated identifier segments. -/
structure Path where
  leading : Bool
  head : String
  tail : List String
  deriving DecidableEq, Repr

/-- Token rendering of the `(:: segment)*` tail of a path. -/
def renderTail : List String → List Tok
  | [] => []
  | s :: tl => .punct ':' :: .punct ':' :: .ident s :: renderTail tl

/-- Token rendering of a path (`ToTokens for syn::Path`). -/
def Path.tokens (p : Path) : List Tok :=
  (if p.leading then [Tok.punct ':', Tok.punct ':'] else []) ++
    Tok.ident p.head :: renderTail p.tail

/-- Greedy consumption of `(:: ident)*` after the first path segment
(the loop inside `syn::Path::parse`). Returns the segments read and the
unconsumed remainder of the stream. -/
def parseSegTail : List Tok → List String × List Tok
  | .punct ':' :: .punct ':' :: .ident s :: rest =>
      let r := parseSegTail rest
      (s :: r.1, r.2)
  | rest => ([], rest)

/-- `input.parse::<syn::Path>()`: leading `::` (optional), then an identifier,
then the greedy segment tail. `none` models a `syn::Error`. -/
def parsePath : List Tok → Option (Path × List Tok)
  | .punct ':' :: .punct ':' :: .ident s :: rest =>
      let r := parseSegTail rest
      some (⟨true, s, r.1⟩, r.2)
  | .ident s :: rest =>
      let r := parseSegTail rest
      some (⟨false, s, r.1⟩, r.2)
  | _ => none

/-- A stream at which greedy path parsing stops: it does not begin with
`:: ident`, so appending it after a rendered path leaves the path parse intact. -/
def pathStop : List Tok → Bool
  | .punct ':' :: .punct ':' :: .ident _ :: _ => false
  | _ => true

/-- Parsed arguments of the `inline_attr` attribute (`struct AttrParams` in
`src/lib.rs`): the target path and the inner tokens of its optional group. -/
structure AttrParams where
  attr_path : Path
  tokens : List Tok

/-- `impl Parse for AttrParams` combined with `syn::parse_macro_input!`: a path,
then optionally one delimited group whose inner tokens are kept (the group
delimiter is discarded by `group.stream()`), then end of input; any other
stream is a parse error (`none`). -/
def AttrParams.parse (input : List Tok) : Option AttrParams :=
  match parsePath input with
  | none => none
  | some (p, rest) =>
    match rest with
    | [] => some ⟨p, []⟩
    | [Tok.group _ g] => some ⟨p, g⟩
    | _ => none

/-- The `inline_attr` proc-macro attribute (`pub fn inline_attr` in `src/lib.rs`):
parses `params` as `AttrParams` and expands to
`quote!(#attr_path!((#tokens) #item);)`. `none` models the `syn::Error`
emitted by `parse_macro_input!`. -/
def inline_attr (params item : List Tok) : Option (List Tok) :=
  (AttrParams.parse params).map (fun ap =>
    ap.attr_path.tokens ++
      [Tok.punct '!', Tok.group .paren (Tok.group .paren ap.tokens :: item), Tok.punct ';'])

/-- Token stream a user would get by manually writing the bang-style statement
`p!((params) item);`, stated from the spec's words for comparison with the
`inline_attr` expansion. -/
def manualAttrCall (p : Path) (params item : List Tok) : List Tok :=
  p.tokens ++
    [Tok.punct '!', Tok.group .paren (Tok.group .paren params :: item), Tok.punct ';']

/-- Kind of a parsed item, as far as `inline_derive` distinguishes them
(`syn::Item`: struct, enum, union, or anything else). -/
inductive ItemKind where
  | structKind
  | enumKind
  | unionKind
  | otherKind
  deriving DecidableEq, Repr

/-- An outer attribute `#[path(args)]` carried by an item (`syn::Attribute`
with list-style meta; the delimiter of the argument group is recorded). -/
structure Attr where
  path : Path
  argsDelim : Delim
  args : List Tok

/-- An item as `inline_derive` sees it: its kind, its attribute list, and the
rest of its tokens (kept opaque). -/
structure Item where
  kind : ItemKind
  attrs : List Attr
  body : List Tok

/-- `syn::Path::is_ident`: the path is a single segment with no leading
colons, equal to the given name. -/
def Path.is_ident (p : Path) (name : String) : Bool :=
  !p.leading && p.tail.isEmpty && p.head == name

/-- Test from `inline_derive`: `attr.path().is_ident("inline_derive")`. -/
def isInlineDerive (a : Attr) : Bool :=
  a.path.is_ident ("inline_derive")

/-- The `position`/`remove` pair in `inline_derive`: find the first attribute
whose path is the `inline_derive` identifier, and return it together with the
attribute list with exactly that occurrence removed. -/
def removeFirstAttr : List Attr → Option (Attr × List Attr)
  | [] => none
  | a :: rest =>
    if isInlineDerive a then some (a, rest)
    else (removeFirstAttr rest).map (fun fr => (fr.1, a :: fr.2))

/-- Loop of `Punctuated::<Path, Token![,]>::parse_terminated` over the
remaining stream, with a fuel bound on the number of parsed elements (each
element consumes at least one token, so a fuel of the stream's length never
runs out). -/
def parsePunctPathsAux : Nat → List Tok → Option (List Path)
  | _, [] => some []
  | 0, _ => none
  | fuel + 1, ts =>
    match parsePath ts with
    | none => none
    | some pr =>
      match pr.2 with
      | [] => some [pr.1]
      | .punct ',' :: rest' =>
        match parsePunctPathsAux fuel rest' with
        | none => none
        | some ps => some (pr.1 :: ps)
      | _ => none

/-- `Punctuated::<Path, Token![,]>::parse_terminated`: zero or more
comma-separated paths with an optional trailing comma, consuming the whole
stream. -/
def parsePunctuatedPaths (ts : List Tok) : Option (List Path) :=
  parsePunctPathsAux ts.length ts

/-- Token rendering of a comma-separated path list (no trailing comma), as a
user writes it inside `#[inline_derive(...)]`. -/
def renderPunct : List Path → List Tok
  | [] => []
  | [p] => p.tokens
  | p :: ps => p.tokens ++ Tok.punct ',' :: renderPunct ps

/-- Token rendering of one outer attribute, `# [ path ( args ) ]`
(`ToTokens for syn::Attribute`). -/
def Attr.tokens (a : Attr) : List Tok :=
  [Tok.punct '#', Tok.group .bracket (a.path.tokens ++ [Tok.group a.argsDelim a.args])]

/-- Token rendering of an item: its remaining attributes in order, then its
body tokens (`ToTokens for syn::Item`, with the non-attribute part opaque). -/
def Item.tokens (item : Item) : List Tok :=
  (item.attrs.map Attr.tokens).flatten ++ item.body

/-- One emitted statement of the derive multiplexer,
`quote!(#derive_path!(#item);)`. -/
def deriveStmt (d : Path) (item : Item) : List Tok :=
  d.tokens ++ [Tok.punct '!', Tok.group .paren item.tokens, Tok.punct ';']

/-- Failures of the derive multiplexer: the two `abort!` calls and the
`parse_args_with` error path in `inline_derive`. -/
inductive DeriveError where
  | unsupportedItemKind
  | attributeMissing
  | argParseError
  deriving DecidableEq, Repr

/-- The `InlineDerive` derive multiplexer (`pub fn inline_derive` in
`src/lib.rs`): reject non-struct/enum/union items, remove the first
`inline_derive` attribute (failing if absent), parse its arguments as
comma-punctuated paths, and emit one `#derive_path!(#item);` statement per
path over the attribute-stripped item, in declared order. -/
def inline_derive (item : Item) : Except DeriveError (List Tok) :=
  match item.kind with
  | .otherKind => .error .unsupportedItemKind
  | _ =>
    match removeFirstAttr item.attrs with
    | none => .error .attributeMissing
    | some (a, remaining) =>
      match parsePunctuatedPaths a.args with
      | none => .error .argParseError
      | some ds =>
        .ok (List.flatten (ds.map (fun d => deriveStmt d { item with attrs := remaining })))

/-- Decimal digit as a character. -/
def digitChar (d : Nat) : Char := Char.ofNat (48 + d)

/-- Decimal rendering of a natural number as characters (most significant
digit first). -/
def natChars (n : Nat) : List Char :=
  if n = 0 then [('0' : Char)] else (Nat.digits 10 n).reverse.map digitChar

/-- Modelled from the spec: the `CrateIdentity` string
`{package name}-{major.minor}-{module name}` (crate docs, How It Works; the
computation itself lives in the `inline_proc` submodule, which is not under
`src/`). The patch component of the version is deliberately dropped. -/
def crateIdentity (pkg : String) (major minor patch : Nat) (modName : String) : String :=
  ⟨pkg.data ++ ('-') :: (natChars major ++ ('.') :: (natChars minor ++ ('-') :: modName.data))⟩

/-- Kind tag of an invocation request (bang / derive / attribute macro). -/
inductive InvKind where
  | bang
  | derive
  | attr
  deriving DecidableEq, Repr

/-- Modelled from the spec: outcome of running the dynamically loaded callee
itself — either it produces serialized tokens or it panics with a message
(the behaviour intercepted in the missing `invoke` submodule). -/
inductive CalleeOutcome where
  | produced (out : String)
  | panicked (msg : String)

/-- Modelled from the spec: errors of the dynamic invoker (missing `invoke`
submodule). -/
inductive InvocationError where
  | symbolNotFound (name : String)
  | calleePanicked (msg : String)

/-- Modelled from the spec: result of one invocation (missing `invoke`
submodule). -/
inductive InvocationResult where
  | produced (out : String)
  | failed (err : InvocationError)

/-- Modelled from the spec: an `InvocationRequest` — artifact path, symbol
name, kind tag and serialized payload (missing `invoke` submodule). -/
structure InvocationRequest where
  artifact_path : String
  symbol_name : String
  kind : InvKind
  payload : List String

/-- Modelled from the spec: a `LoadedArtifactHandle` — a process-wide cache
entry keyed by artifact path, resolving symbol names to callee functions
(missing `invoke` submodule). -/
structure LoadedArtifactHandle where
  artifact_path : String
  symbols : String → Option (List String → CalleeOutcome)

/-- Modelled from the spec: lookup of an already-loaded handle by artifact
path in the process-wide cache (missing `invoke` submodule). -/
def lookupHandle (cache : List LoadedArtifactHandle) (path : String) :
    Option LoadedArtifactHandle :=
  cache.find? (fun h => h.artifact_path == path)

/-- Modelled from the spec: look up or create the handle for an artifact path;
`loadLib` is the operating system's library loader, and a freshly loaded
handle is appended to the cache, which is never pruned (missing `invoke`
submodule). -/
def loadOrReuse (loadLib : String → LoadedArtifactHandle)
    (cache : List LoadedArtifactHandle) (path : String) :
    LoadedArtifactHandle × List LoadedArtifactHandle :=
  match lookupHandle cache path with
  | some h => (h, cache)
  | none => (loadLib path, cache ++ [loadLib path])

/-- Modelled from the spec: one step of the dynamic invoker — obtain the
handle, resolve the symbol, run the callee, and convert a callee panic into
`InvocationError.calleePanicked` at the boundary (missing `invoke`
submodule). -/
def invoke (loadLib : String → LoadedArtifactHandle)
    (cache : List LoadedArtifactHandle) (req : InvocationRequest) :
    InvocationResult × List LoadedArtifactHandle :=
  let hc := loadOrReuse loadLib cache req.artifact_path
  match hc.1.symbols req.symbol_name with
  | none => (.failed (.symbolNotFound req.symbol_name), hc.2)
  | some f =>
    match f req.payload with
    | .produced out => (.produced out, hc.2)
    | .panicked msg => (.failed (.calleePanicked msg), hc.2)

/-- Artifact paths of the cached handles, in cache order. -/
def cacheKeys (cache : List LoadedArtifactHandle) : List String :=
  cache.map (fun h => h.artifact_path)

/-! ## Lemmas about path parsing -/

theorem pathStop_nil : pathStop [] = true := rfl

theorem pathStop_comma (xs : List Tok) : pathStop (Tok.punct ',' :: xs) = true := rfl

theorem pathStop_group (d : Delim) (g xs : List Tok) :
    pathStop (Tok.group d g :: xs) = true := rfl

theorem parseSegTail_stop {rest : List Tok} (h : pathStop rest = true) :
    parseSegTail rest = ([], rest) := by
  unfold parseSegTail
  split
  · rename_i s r
    simp [pathStop] at h
  · rfl

theorem parseSegTail_render (tl : List String) (rest : List Tok)
    (h : pathStop rest = true) : parseSegTail (renderTail tl ++ rest) = (tl, rest) := by
  induction tl with
  | nil => simpa [renderTail] using parseSegTail_stop h
  | cons s tl ih => simp [renderTail, parseSegTail, ih]

theorem parsePath_render (p : Path) (rest : List Tok) (h : pathStop rest = true) :
    parsePath (p.tokens ++ rest) = some (p, rest) := by
  rcases p with ⟨lead, head, tail⟩
  cases lead <;>
    simp [Path.tokens, parsePath, parseSegTail_render tail rest h]

theorem parseSegTail_sound (ts : List Tok) :
    renderTail (parseSegTail ts).1 ++ (parseSegTail ts).2 = ts ∧
      pathStop (parseSegTail ts).2 = true := by
  induction ts using parseSegTail.induct with
  | case1 s rest ih => simp [parseSegTail, renderTail, ih.1, ih.2]
  | case2 rest h =>
    have h1 : parseSegTail rest = ([], rest) := by
      unfold parseSegTail
      split
      · rename_i s r
        exact ((h s r rfl)).elim
      · rfl
    have h2 : pathStop rest = true := by
      unfold pathStop
      split
      · rename_i s r
        exact ((h s r rfl)).elim
      · rfl
    simp [h1, renderTail, h2]

theorem parsePath_sound {ts : List Tok} {p : Path} {rest : List Tok}
    (h : parsePath ts = some (p, rest)) :
    ts = p.tokens ++ rest ∧ pathStop rest = true := by
  unfold parsePath at h
  split at h
  · rename_i s r
    injection h with h
    injection h with h1 h2
    subst h1
    subst h2
    have := parseSegTail_sound r
    simp [Path.tokens, this.1, this.2]
  · rename_i s r
    injection h with h
    injection h with h1 h2
    subst h1
    subst h2
    have := parseSegTail_sound r
    simp [Path.tokens, this.1, this.2]
  · cases h

theorem Path.tokens_ne_nil (p : Path) : p.tokens ≠ [] := by
  rcases p with ⟨lead, head, tail⟩
  cases lead <;> simp [Path.tokens]

/-! ## Claims about `inline_attr` (C1, C7, C9, C10) -/

theorem attrParams_parse_group (p : Path) (d : Delim) (g : List Tok) :
    AttrParams.parse (p.tokens ++ [Tok.group d g]) = some ⟨p, g⟩ := by
  unfold AttrParams.parse
  rw [parsePath_render p [Tok.group d g] (pathStop_group d g [])]

theorem attrParams_parse_bare (p : Path) :
    AttrParams.parse p.tokens = some ⟨p, []⟩ := by
  unfold AttrParams.parse
  rw [show p.tokens = p.tokens ++ [] by simp,
    parsePath_render p [] pathStop_nil]

theorem inline_attr_group_eq (p : Path) (d : Delim) (g i : List Tok) :
    inline_attr (p.tokens ++ [Tok.group d g]) i = some (manualAttrCall p g i) := by
  simp [inline_attr, attrParams_parse_group, manualAttrCall]

/-- C1: expanding `inline_attr` with params `p(g)` (any delimiter) on item `i`
produces exactly the single bang-style statement `p!((g) i);`, the same token
stream a user gets by manually writing that invocation. -/
theorem inline_attr_expands_to_manual_call (p : Path) (d : Delim) (g i : List Tok) :
    inline_attr (p.tokens ++ [Tok.group d g]) i = some (manualAttrCall p g i) :=
  inline_attr_group_eq p d g i

/-- C9: expanding `inline_attr` with a bare path `p` and no parameter group
still produces an invocation whose first argument is an empty parenthesized
group: `p!(() i);`. -/
theorem inline_attr_bare_path (p : Path) (i : List Tok) :
    inline_attr p.tokens i =
      some (p.tokens ++
        [Tok.punct '!', Tok.group .paren (Tok.group .paren [] :: i), Tok.punct ';']) := by
  simp [inline_attr, attrParams_parse_bare]

/-- C10: the expansion of `inline_attr` keeps only the inner tokens of the
parameter group, so parenthesized, bracketed and braced groups with the same
inner tokens all expand identically. -/
theorem inline_attr_delim_agnostic (p : Path) (d1 d2 : Delim) (g i : List Tok) :
    inline_attr (p.tokens ++ [Tok.group d1 g]) i =
      inline_attr (p.tokens ++ [Tok.group d2 g]) i := by
  rw [inline_attr_group_eq, inline_attr_group_eq]

/-! ## Lemmas about the derive multiplexer -/

theorem parsePunctAux_render :
    ∀ (ds : List Path) (fuel : Nat), ds.length ≤ fuel →
      parsePunctPathsAux fuel (renderPunct ds) = some ds := by
  intro ds
  induction ds using renderPunct.induct with
  | case1 =>
    intro fuel _
    cases fuel <;> simp [renderPunct, parsePunctPathsAux]
  | case2 p =>
    intro fuel hf
    have hf1 : 1 ≤ fuel := by simpa using hf
    obtain ⟨f, rfl⟩ : ∃ f, fuel = f + 1 := ⟨fuel - 1, by omega⟩
    obtain ⟨t, ts', ht⟩ := List.exists_cons_of_ne_nil (Path.tokens_ne_nil p)
    have hp : parsePath (t :: ts') = some (p, []) := by
      rw [← ht]
      simpa using parsePath_render p [] pathStop_nil
    simp [renderPunct, ht, parsePunctPathsAux, hp]
  | case3 p ps h1 ih =>
    intro fuel hf
    have hf1 : 1 ≤ fuel := by simp at hf; omega
    obtain ⟨f, rfl⟩ : ∃ f, fuel = f + 1 := ⟨fuel - 1, by omega⟩
    have hps : ps ≠ [] := fun he => h1 he
    have hr : renderPunct (p :: ps) = p.tokens ++ Tok.punct ',' :: renderPunct ps := by
      cases ps with
      | nil => exact absurd rfl hps
      | cons q qs => rfl
    obtain ⟨t, ts', ht⟩ :=
      List.exists_cons_of_ne_nil
        (show p.tokens ++ Tok.punct ',' :: renderPunct ps ≠ [] by simp)
    have hp : parsePath (t :: ts') = some (p, Tok.punct ',' :: renderPunct ps) := by
      rw [← ht]
      exact parsePath_render p _ (pathStop_comma _)
    have hrec := ih f (by simp at hf ⊢; omega)
    simp [hr, ht, parsePunctPathsAux, hp, hrec]

theorem renderPunct_len (ds : List Path) : ds.length ≤ (renderPunct ds).length := by
  induction ds using renderPunct.induct with
  | case1 => simp [renderPunct]
  | case2 p =>
    have := List.length_pos.mpr (Path.tokens_ne_nil p)
    simp [renderPunct]
    omega
  | case3 p ps h1 ih =>
    have hr : renderPunct (p :: ps) = p.tokens ++ Tok.punct ',' :: renderPunct ps := by
      cases ps with
      | nil => exact absurd rfl h1
      | cons q qs => rfl
    have := List.length_pos.mpr (Path.tokens_ne_nil p)
    simp [hr]
    omega

theorem parsePunctuatedPaths_render (ds : List Path) :
    parsePunctuatedPaths (renderPunct ds) = some ds :=
  parsePunctAux_render ds _ (renderPunct_len ds)

theorem removeFirstAttr_none {as : List Attr}
    (h : ∀ a ∈ as, isInlineDerive a = false) : removeFirstAttr as = none := by
  induction as with
  | nil => rfl
  | cons a rest ih =>
    simp [removeFirstAttr, h a (by simp), ih (fun x hx => h x (by simp [hx]))]

theorem removeFirstAttr_filter {as : List Attr} {a : Attr} {rem : List Attr}
    (p : Attr → Bool) (hp : ∀ x, p x = true → isInlineDerive x = false)
    (h : removeFirstAttr as = some (a, rem)) : rem.filter p = as.filter p := by
  induction as generalizing a rem with
  | nil => cases h
  | cons b bs ih =>
    unfold removeFirstAttr at h
    by_cases hb : isInlineDerive b
    · rw [if_pos hb] at h
      injection h with h
      injection h with h1 h2
      subst h1
      subst h2
      have hpb : p b = false := by
        cases e : p b
        · rfl
        · rw [hp b e] at hb
          cases hb
      simp [List.filter_cons, hpb]
    · rw [if_neg hb] at h
      cases e : removeFirstAttr bs with
      | none =>
        rw [e] at h
        cases h
      | some fr =>
        obtain ⟨a', rem'⟩ := fr
        rw [e] at h
        dsimp [Option.map] at h
        injection h with h
        injection h with h1 h2
        subst h1
        subst h2
        simp [List.filter_cons, ih e]

/-! ## Claims about the derive multiplexer (C2, C6, C8) -/

/-- C2: on a struct/enum/union item carrying the `inline_derive` attribute
naming paths `ds` in order, the multiplexer emits exactly one bang-style
invocation statement per named path, in declared left-to-right order, each
over the attribute-stripped item; in particular two named paths give exactly
`D1!(item); D2!(item);`. -/
theorem inline_derive_multiplex (item : Item) (a : Attr) (rem : List Attr) (ds : List Path)
    (hkind : item.kind ≠ ItemKind.otherKind)
    (hattr : removeFirstAttr item.attrs = some (a, rem))
    (hargs : a.args = renderPunct ds) :
    inline_derive item =
      .ok (List.flatten (ds.map (fun d => deriveStmt d ⟨item.kind, rem, item.body⟩))) ∧
    ∀ d1 d2 : Path, ds = [d1, d2] →
      inline_derive item =
        .ok (deriveStmt d1 ⟨item.kind, rem, item.body⟩ ++
          deriveStmt d2 ⟨item.kind, rem, item.body⟩) := by
  rcases item with ⟨k, attrs, body⟩
  have hmain : inline_derive ⟨k, attrs, body⟩ =
      .ok (List.flatten (ds.map (fun d => deriveStmt d ⟨k, rem, body⟩))) := by
    cases k with
    | otherKind => exact absurd rfl hkind
    | structKind =>
      simp only [inline_derive]
      rw [hattr]
      dsimp only
      rw [hargs, parsePunctuatedPaths_render]
    | enumKind =>
      simp only [inline_derive]
      rw [hattr]
      dsimp only
      rw [hargs, parsePunctuatedPaths_render]
    | unionKind =>
      simp only [inline_derive]
      rw [hattr]
      dsimp only
      rw [hargs, parsePunctuatedPaths_render]
  refine ⟨hmain, fun d1 d2 hds => ?_⟩
  subst hds
  simpa using hmain

/-- C2 witness: a concrete struct carrying `#[inline_derive(D1, D2)]` and one
other attribute expands to exactly the two statements, in order, over the
stripped item. -/
theorem inline_derive_multiplex_witness :
    inline_derive
        ⟨ItemKind.structKind,
          [⟨⟨false, ("helper"), []⟩, Delim.bracket, [Tok.ident ("h")]⟩,
           ⟨⟨false, ("inline_derive"), []⟩, Delim.paren,
             renderPunct [⟨false, ("D1"), []⟩, ⟨false, ("D2"), []⟩]⟩],
          [Tok.ident ("struct"), Tok.ident ("S"), Tok.punct ';']⟩ =
      .ok (deriveStmt ⟨false, ("D1"), []⟩
            ⟨ItemKind.structKind, [⟨⟨false, ("helper"), []⟩, Delim.bracket, [Tok.ident ("h")]⟩],
              [Tok.ident ("struct"), Tok.ident ("S"), Tok.punct ';']⟩ ++
           deriveStmt ⟨false, ("D2"), []⟩
            ⟨ItemKind.structKind, [⟨⟨false, ("helper"), []⟩, Delim.bracket, [Tok.ident ("h")]⟩],
              [Tok.ident ("struct"), Tok.ident ("S"), Tok.punct ';']⟩) :=
  (inline_derive_multiplex
    ⟨ItemKind.structKind,
      [⟨⟨false, ("helper"), []⟩, Delim.bracket, [Tok.ident ("h")]⟩,
       ⟨⟨false, ("inline_derive"), []⟩, Delim.paren,
         renderPunct [⟨false, ("D1"), []⟩, ⟨false, ("D2"), []⟩]⟩],
      [Tok.ident ("struct"), Tok.ident ("S"), Tok.punct ';']⟩
    ⟨⟨false, ("inline_derive"), []⟩, Delim.paren,
      renderPunct [⟨false, ("D1"), []⟩, ⟨false, ("D2"), []⟩]⟩
    [⟨⟨false, ("helper"), []⟩, Delim.bracket, [Tok.ident ("h")]⟩]
    [⟨false, ("D1"), []⟩, ⟨false, ("D2"), []⟩]
    (by decide) rfl rfl).2 _ _ rfl

/-- C6: the multiplexer fails with the unsupported-item-kind error on any item
that is not a struct, enum or union, and with the attribute-missing error on a
struct/enum/union item none of whose attributes is `inline_derive`; in both
cases the result is an error, so no invocation statements are emitted. -/
theorem inline_derive_error_conditions (item : Item) :
    (item.kind = ItemKind.otherKind →
      inline_derive item = .error DeriveError.unsupportedItemKind) ∧
    (item.kind ≠ ItemKind.otherKind →
      (∀ a ∈ item.attrs, isInlineDerive a = false) →
      inline_derive item = .error DeriveError.attributeMissing) := by
  rcases item with ⟨k, attrs, body⟩
  constructor
  · intro hk
    subst hk
    rfl
  · intro hk hall
    cases k with
    | otherKind => exact absurd rfl hk
    | structKind =>
      simp only [inline_derive]
      rw [removeFirstAttr_none hall]
    | enumKind =>
      simp only [inline_derive]
      rw [removeFirstAttr_none hall]
    | unionKind =>
      simp only [inline_derive]
      rw [removeFirstAttr_none hall]

/-- C6 witness: a non-struct item errs with the unsupported kind, and a struct
with no `inline_derive` attribute errs with the missing attribute. -/
theorem inline_derive_error_conditions_witness :
    inline_derive ⟨ItemKind.otherKind, [], []⟩ =
        .error DeriveError.unsupportedItemKind ∧
      inline_derive ⟨ItemKind.structKind, [⟨⟨false, ("helper"), []⟩, Delim.paren, []⟩], []⟩ =
        .error DeriveError.attributeMissing :=
  ⟨(inline_derive_error_conditions _).1 rfl,
   (inline_derive_error_conditions _).2 (by simp) (by simp [isInlineDerive, Path.is_ident])⟩

/-- C8: whatever item the multiplexer passes to the invoked derive paths keeps
every attribute other than the removed `inline_derive` attribute — in
particular every occurrence of the reserved pass-through `helper` attribute —
unchanged and in order. -/
theorem inline_derive_frame (item : Item) (a : Attr) (rem : List Attr) (ds : List Path)
    (hkind : item.kind ≠ ItemKind.otherKind)
    (hattr : removeFirstAttr item.attrs = some (a, rem))
    (hds : parsePunctuatedPaths a.args = some ds) :
    inline_derive item =
      .ok (List.flatten (ds.map (fun d => deriveStmt d ⟨item.kind, rem, item.body⟩))) ∧
    rem.filter (fun x => !isInlineDerive x) =
      item.attrs.filter (fun x => !isInlineDerive x) ∧
    rem.filter (fun x => x.path.is_ident ("helper")) =
      item.attrs.filter (fun x => x.path.is_ident ("helper")) := by
  refine ⟨?_, ?_, ?_⟩
  · rcases item with ⟨k, attrs, body⟩
    cases k with
    | otherKind => exact absurd rfl hkind
    | structKind =>
      simp only [inline_derive]
      rw [hattr]
      dsimp only
      rw [hds]
    | enumKind =>
      simp only [inline_derive]
      rw [hattr]
      dsimp only
      rw [hds]
    | unionKind =>
      simp only [inline_derive]
      rw [hattr]
      dsimp only
      rw [hds]
  · exact removeFirstAttr_filter _ (fun x hx => by simpa using hx) hattr
  · refine removeFirstAttr_filter _ (fun x hx => ?_) hattr
    simp [Path.is_ident] at hx
    simp [isInlineDerive, Path.is_ident, hx.1.1, hx.1.2, hx.2]

/-- C8 witness: on a concrete enum with a `helper` attribute before and after
the `inline_derive` attribute, both helper occurrences survive in order. -/
theorem inline_derive_frame_witness :
    inline_derive
        ⟨ItemKind.enumKind,
          [⟨⟨false, ("helper"), []⟩, Delim.paren, [Tok.ident ("x0")]⟩,
           ⟨⟨false, ("inline_derive"), []⟩, Delim.paren, [Tok.ident ("D1")]⟩,
           ⟨⟨false, ("helper"), []⟩, Delim.paren, [Tok.ident ("y")]⟩],
          [Tok.ident ("enum"), Tok.ident ("E")]⟩ =
      .ok (List.flatten
        ([⟨false, ("D1"), []⟩] |>.map (fun d => deriveStmt d
          ⟨ItemKind.enumKind,
            [⟨⟨false, ("helper"), []⟩, Delim.paren, [Tok.ident ("x0")]⟩,
             ⟨⟨false, ("helper"), []⟩, Delim.paren, [Tok.ident ("y")]⟩],
            [Tok.ident ("enum"), Tok.ident ("E")]⟩))) ∧
    List.filter (fun x => x.path.is_ident ("helper"))
        [⟨⟨false, ("helper"), []⟩, Delim.paren, [Tok.ident ("x0")]⟩,
         ⟨⟨false, ("helper"), []⟩, Delim.paren, [Tok.ident ("y")]⟩] =
      List.filter (fun x : Attr => x.path.is_ident ("helper"))
        [⟨⟨false, ("helper"), []⟩, Delim.paren, [Tok.ident ("x0")]⟩,
         ⟨⟨false, ("inline_derive"), []⟩, Delim.paren, [Tok.ident ("D1")]⟩,
         ⟨⟨false, ("helper"), []⟩, Delim.paren, [Tok.ident ("y")]⟩] := by
  have h := inline_derive_frame
    ⟨ItemKind.enumKind,
      [⟨⟨false, ("helper"), []⟩, Delim.paren, [Tok.ident ("x0")]⟩,
       ⟨⟨false, ("inline_derive"), []⟩, Delim.paren, [Tok.ident ("D1")]⟩,
       ⟨⟨false, ("helper"), []⟩, Delim.paren, [Tok.ident ("y")]⟩],
      [Tok.ident ("enum"), Tok.ident ("E")]⟩
    ⟨⟨false, ("inline_derive"), []⟩, Delim.paren, [Tok.ident ("D1")]⟩
    _ [⟨false, ("D1"), []⟩] (by simp) rfl rfl
  exact ⟨h.1, h.2.2⟩

/-! ## Lemmas about the crate identity string (C5) -/

theorem digitChar_sep : ∀ d < 10, digitChar d ≠ ('.') ∧ digitChar d ≠ ('-') := by
  decide

theorem digitChar_inj : ∀ d1 < 10, ∀ d2 < 10, digitChar d1 = digitChar d2 → d1 = d2 := by
  decide

theorem natChars_sep (n : Nat) : ∀ c ∈ natChars n, c ≠ ('.') ∧ c ≠ ('-') := by
  intro c hc
  by_cases h : n = 0
  · simp [natChars, h] at hc
    subst hc
    exact ⟨by decide, by decide⟩
  · simp [natChars, h] at hc
    obtain ⟨d, hd, rfl⟩ := hc
    exact digitChar_sep d (Nat.digits_lt_base (by norm_num) hd)

theorem map_digitChar_inj :
    ∀ (l1 l2 : List Nat), (∀ x ∈ l1, x < 10) → (∀ x ∈ l2, x < 10) →
      l1.map digitChar = l2.map digitChar → l1 = l2 := by
  intro l1
  induction l1 with
  | nil =>
    intro l2 _ _ h
    cases l2 with
    | nil => rfl
    | cons b bs => simp at h
  | cons a as ih =>
    intro l2 h1 h2 h
    cases l2 with
    | nil => simp at h
    | cons b bs =>
      simp at h
      have hab := digitChar_inj a (h1 a (by simp)) b (h2 b (by simp)) h.1
      have htl := ih bs (fun x hx => h1 x (by simp [hx])) (fun x hx => h2 x (by simp [hx])) h.2
      simp [hab, htl]

theorem natChars_singleton_zero {n : Nat} (h : natChars n = [('0' : Char)]) : n = 0 := by
  by_cases hn : n = 0
  · exact hn
  · exfalso
    simp [natChars, hn] at h
    have hlen : (Nat.digits 10 n).length = 1 := by
      have := congrArg List.length h
      simpa using this
    obtain ⟨d, hd⟩ : ∃ d, Nat.digits 10 n = [d] := by
      cases e : Nat.digits 10 n with
      | nil => rw [e] at hlen; simp at hlen
      | cons x xs =>
        cases xs with
        | nil => exact ⟨x, rfl⟩
        | cons y ys => rw [e] at hlen; simp at hlen
    rw [hd] at h
    simp at h
    have hd10 : d < 10 := Nat.digits_lt_base (by norm_num) (by rw [hd]; simp)
    have hd0 : d = 0 := digitChar_inj d hd10 0 (by norm_num) h
    have := Nat.ofDigits_digits 10 n
    rw [hd, hd0] at this
    simp [Nat.ofDigits] at this
    exact hn this.symm

theorem natChars_inj {a b : Nat} (h : natChars a = natChars b) : a = b := by
  by_cases ha : a = 0 <;> by_cases hb : b = 0
  · omega
  · rw [ha] at h
    have := natChars_singleton_zero (n := b) (by rw [← h]; rfl)
    omega
  · rw [hb] at h
    have := natChars_singleton_zero (n := a) (by rw [h]; rfl)
    omega
  · simp [natChars, ha, hb] at h
    have hdig := map_digitChar_inj _ _
      (fun x hx => Nat.digits_lt_base (by norm_num) hx)
      (fun x hx => Nat.digits_lt_base (by norm_num) hx) h
    have := Nat.ofDigits_digits 10 a
    rw [hdig, Nat.ofDigits_digits] at this
    exact this.symm

theorem sep_split {α : Type} (sep : α) :
    ∀ (xs1 xs2 ys1 ys2 : List α),
      (∀ c ∈ xs1, c ≠ sep) → (∀ c ∈ xs2, c ≠ sep) →
      xs1 ++ sep :: ys1 = xs2 ++ sep :: ys2 → xs1 = xs2 ∧ ys1 = ys2 := by
  intro xs1
  induction xs1 with
  | nil =>
    intro xs2 ys1 ys2 h1 h2 h
    cases xs2 with
    | nil => simpa using h
    | cons b bs =>
      simp at h
      exact absurd h.1.symm (h2 b (by simp))
  | cons a as ih =>
    intro xs2 ys1 ys2 h1 h2 h
    cases xs2 with
    | nil =>
      simp at h
      exact absurd h.1 (h1 a (by simp))
    | cons b bs =>
      simp at h
      obtain ⟨hab, h'⟩ := h
      have hrec := ih bs ys1 ys2 (fun c hc => h1 c (by simp [hc]))
        (fun c hc => h2 c (by simp [hc])) h'
      simp [hab, hrec.1, hrec.2]

/-- C5: the crate identity is a pure function of package name, major.minor
version and module name — equal inputs give equal strings, changing the module
name alone or the major.minor pair alone changes the string, and changing the
patch component alone never does. -/
theorem crateIdentity_key (pkg : String) (major minor patch : Nat) (m : String) :
    (∀ (pkg2 : String) (major2 minor2 patch2 : Nat) (m2 : String),
        pkg = pkg2 → major = major2 → minor = minor2 → patch = patch2 → m = m2 →
        crateIdentity pkg major minor patch m =
          crateIdentity pkg2 major2 minor2 patch2 m2) ∧
    (∀ m2 : String, m ≠ m2 →
        crateIdentity pkg major minor patch m ≠
          crateIdentity pkg major minor patch m2) ∧
    (∀ major2 minor2 : Nat, (major, minor) ≠ (major2, minor2) →
        crateIdentity pkg major minor patch m ≠
          crateIdentity pkg major2 minor2 patch m) ∧
    (∀ patch2 : Nat,
        crateIdentity pkg major minor patch m =
          crateIdentity pkg major minor patch2 m) := by
  refine ⟨?_, ?_, ?_, ?_⟩
  · intro pkg2 major2 minor2 patch2 m2 h1 h2 h3 h4 h5
    subst h1
    subst h2
    subst h3
    subst h4
    subst h5
    rfl
  · intro m2 hne heq
    unfold crateIdentity at heq
    injection heq with hdata
    have h1 := List.append_cancel_left hdata
    injection h1 with _ h2
    have h3 := List.append_cancel_left h2
    injection h3 with _ h4
    have h5 := List.append_cancel_left h4
    injection h5 with _ h6
    exact hne (String.ext h6)
  · intro major2 minor2 hne heq
    unfold crateIdentity at heq
    injection heq with hdata
    have h1 := List.append_cancel_left hdata
    injection h1 with _ h2
    have hdot := sep_split ('.') (natChars major) (natChars major2) _ _
      (fun c hc => (natChars_sep major c hc).1)
      (fun c hc => (natChars_sep major2 c hc).1) h2
    have hdash := sep_split ('-') (natChars minor) (natChars minor2) _ _
      (fun c hc => (natChars_sep minor c hc).2)
      (fun c hc => (natChars_sep minor2 c hc).2) hdot.2
    exact hne (by rw [natChars_inj hdot.1, natChars_inj hdash.1])
  · intro patch2
    rfl

/-- C5 witness: with the documented example inputs, module-name and
minor-version changes alter the identity string while a patch-version change
does not. -/
theorem crateIdentity_key_witness :
    crateIdentity ("my-nice-crate") 0 7 3 ("my_module") ≠
        crateIdentity ("my-nice-crate") 0 7 3 ("other_mod") ∧
      crateIdentity ("my-nice-crate") 0 7 3 ("my_module") ≠
        crateIdentity ("my-nice-crate") 0 8 3 ("my_module") ∧
      crateIdentity ("my-nice-crate") 0 7 3 ("my_module") =
        crateIdentity ("my-nice-crate") 0 7 4 ("my_module") :=
  ⟨(crateIdentity_key ("my-nice-crate") 0 7 3 ("my_module")).2.1 ("other_mod") (by decide),
   (crateIdentity_key ("my-nice-crate") 0 7 3 ("my_module")).2.2.1 0 8 (by decide),
   (crateIdentity_key ("my-nice-crate") 0 7 3 ("my_module")).2.2.2 4⟩

/-! ## Lemmas about the dynamic invoker (C3, C4) -/

theorem invoke_snd (loadLib : String → LoadedArtifactHandle)
    (cache : List LoadedArtifactHandle) (req : InvocationRequest) :
    (invoke loadLib cache req).2 = (loadOrReuse loadLib cache req.artifact_path).2 := by
  unfold invoke
  dsimp only
  split
  · rfl
  · split <;> rfl

theorem loadOrReuse_hit (loadLib : String → LoadedArtifactHandle)
    {cache : List LoadedArtifactHandle} {p : String} {h : LoadedArtifactHandle}
    (e : lookupHandle cache p = some h) : loadOrReuse loadLib cache p = (h, cache) := by
  unfold loadOrReuse
  rw [e]

theorem loadOrReuse_miss (loadLib : String → LoadedArtifactHandle)
    {cache : List LoadedArtifactHandle} {p : String}
    (e : lookupHandle cache p = none) :
    loadOrReuse loadLib cache p = (loadLib p, cache ++ [loadLib p]) := by
  unfold loadOrReuse
  rw [e]

theorem lookupHandle_append_self (loadLib : String → LoadedArtifactHandle)
    (hload : ∀ q, (loadLib q).artifact_path = q)
    {cache : List LoadedArtifactHandle} {p : String}
    (e : lookupHandle cache p = none) :
    lookupHandle (cache ++ [loadLib p]) p = some (loadLib p) := by
  unfold lookupHandle at e ⊢
  rw [List.find?_append, e]
  simp [hload p]

theorem lookupHandle_none_not_mem {cache : List LoadedArtifactHandle} {p : String}
    (e : lookupHandle cache p = none) : p ∉ cacheKeys cache := by
  unfold lookupHandle at e
  rw [List.find?_eq_none] at e
  intro hmem
  simp [cacheKeys] at hmem
  obtain ⟨h, hh, hp⟩ := hmem
  exact (e h hh) (by simp [hp])

/-- C3: any panic raised inside the dynamically loaded callee is caught at the
invocation boundary and surfaced as the error value
`InvocationError.calleePanicked` carrying the panic message, never as an
uncontrolled fault: `invoke` still returns an `InvocationResult`. -/
theorem invoke_catches_panic (loadLib : String → LoadedArtifactHandle)
    (cache : List LoadedArtifactHandle) (req : InvocationRequest)
    (f : List String → CalleeOutcome) (msg : String)
    (hsym : (loadOrReuse loadLib cache req.artifact_path).1.symbols req.symbol_name = some f)
    (hpanic : f req.payload = CalleeOutcome.panicked msg) :
    (invoke loadLib cache req).1 =
      InvocationResult.failed (InvocationError.calleePanicked msg) := by
  unfold invoke
  dsimp only
  rw [hsym]
  dsimp only
  rw [hpanic]

/-- C3 witness: a callee that panics with message `boom` yields exactly
`failed (calleePanicked "boom")`. -/
theorem invoke_catches_panic_witness :
    (invoke (fun p => ⟨p, fun _ => some (fun _ => CalleeOutcome.panicked ("boom"))⟩)
        [] ⟨("lib.so"), ("sym"), InvKind.bang, [("payload")]⟩).1 =
      InvocationResult.failed (InvocationError.calleePanicked ("boom")) :=
  invoke_catches_panic _ [] _ _ ("boom") rfl rfl

/-- C4: across invocations the handle cache keeps at most one handle per
artifact path (its key list stays duplicate-free), a second invocation with
the same path reuses the handle of the first without growing the cache, and
each step only ever appends to the cache — no handle is removed. -/
theorem invoke_cache_append_only (loadLib : String → LoadedArtifactHandle)
    (cache : List LoadedArtifactHandle) (req : InvocationRequest)
    (hload : ∀ p, (loadLib p).artifact_path = p)
    (hnodup : (cacheKeys cache).Nodup) :
    ((invoke loadLib ((invoke loadLib cache req).2) req).2 = (invoke loadLib cache req).2 ∧
      (loadOrReuse loadLib ((invoke loadLib cache req).2) req.artifact_path).1 =
        (loadOrReuse loadLib cache req.artifact_path).1) ∧
    (∃ new, (invoke loadLib cache req).2 = cache ++ new) ∧
    (cacheKeys (invoke loadLib cache req).2).Nodup := by
  rw [invoke_snd, invoke_snd]
  cases e : lookupHandle cache req.artifact_path with
  | some h =>
    rw [loadOrReuse_hit loadLib e]
    dsimp only
    rw [loadOrReuse_hit loadLib e]
    exact ⟨⟨rfl, rfl⟩, ⟨[], by simp⟩, hnodup⟩
  | none =>
    rw [loadOrReuse_miss loadLib e]
    have e2 := lookupHandle_append_self loadLib hload e
    dsimp only
    rw [loadOrReuse_hit loadLib e2]
    refine ⟨⟨rfl, rfl⟩, ⟨[loadLib req.artifact_path], rfl⟩, ?_⟩
    have hkeys : cacheKeys (cache ++ [loadLib req.artifact_path]) =
        (cacheKeys cache).concat req.artifact_path := by
      simp [cacheKeys, hload]
    rw [hkeys]
    exact List.Nodup.concat (lookupHandle_none_not_mem e) hnodup

/-- C4 witness: starting from an empty cache, two invocations against the same
artifact path load once, reuse the handle, only append, and keep unique keys. -/
theorem invoke_cache_append_only_witness :
    ((invoke (fun p => ⟨p, fun _ => none⟩)
        ((invoke (fun p => ⟨p, fun _ => none⟩) []
          ⟨("lib.so"), ("sym"), InvKind.derive, []⟩).2)
        ⟨("lib.so"), ("sym"), InvKind.derive, []⟩).2 =
      (invoke (fun p => ⟨p, fun _ => none⟩) []
        ⟨("lib.so"), ("sym"), InvKind.derive, []⟩).2 ∧
      (loadOrReuse (fun p => ⟨p, fun _ => none⟩)
          ((invoke (fun p => ⟨p, fun _ => none⟩) []
            ⟨("lib.so"), ("sym"), InvKind.derive, []⟩).2) ("lib.so")).1 =
        (loadOrReuse (fun p => ⟨p, fun _ => none⟩) [] ("lib.so")).1) ∧
    (∃ new, (invoke (fun p => ⟨p, fun _ => none⟩) []
        ⟨("lib.so"), ("sym"), InvKind.derive, []⟩).2 = [] ++ new) ∧
    (cacheKeys (invoke (fun p => ⟨p, fun _ => none⟩) []
        ⟨("lib.so"), ("sym"), InvKind.derive, []⟩).2).Nodup :=
  invoke_cache_append_only (fun p => ⟨p, fun _ => none⟩) []
    ⟨("lib.so"), ("sym"), InvKind.derive, []⟩ (fun _ => rfl) (by simp [cacheKeys])

end InlineProc
